import Mathlib

/-!
# Verification of the hashed-Minecraft-assets extractor

A shallow embedding of the extractor's core (`src/hashed.rs`, `src/jar.rs`,
`src/version.rs`, `src/main.rs`) and proofs of the specification's claims
about it.

Paths are modelled as a flag for absoluteness plus a list of components,
mirroring `std::path::PathBuf` component semantics (`push` replaces the
whole path when the pushed path is absolute; `parent` drops the final
component; `strip_prefix` yields the relative remainder).

File-system effects (reads, directory creations, writes, warnings, progress
prints) are modelled as event traces; fallible operations are driven by
explicit environment oracles so that every error path of the source is
reachable in the model.
-/

namespace Extract

/-! ### The path model -/

/-- A file-system path: `abs` records whether it is rooted, `segs` its
components in order, mirroring `std::path::Path` components. -/
structure RPath where
  abs : Bool
  segs : List String
deriving DecidableEq

/-- `PathBuf::push` / `Path::join`: an absolute right operand replaces the
whole path, otherwise components are appended. -/
def RPath.join (a b : RPath) : RPath :=
  if b.abs then b else ⟨a.abs, a.segs ++ b.segs⟩

/-- `Path::starts_with`: component-wise, including the root component. -/
def RPath.startsWith (p pre : RPath) : Bool :=
  (pre.abs == p.abs) && pre.segs.isPrefixOf p.segs

/-- `Path::strip_prefix`, as an `Option`: the relative remainder when `pre`
is a component-wise front of `p`. -/
def RPath.stripPre (p pre : RPath) : Option RPath :=
  if p.startsWith pre then some ⟨false, p.segs.drop pre.segs.length⟩ else none

/-- `Path::parent`: drops the final component; `none` for the root or the
empty path. -/
def RPath.parent (p : RPath) : Option RPath :=
  match p.segs with
  | [] => none
  | _ :: _ => some ⟨p.abs, p.segs.dropLast⟩

/-- Render a component list with `/` separators (for relating component
paths back to the textual form used by the spec). -/
def renderSegs : List String → String
  | [] => ""
  | [s] => s
  | s :: rest => s ++ "/" ++ renderSegs rest

/-- `src/hashed.rs` `Object` (also `src/main.rs` `Object`): the metadata of
one hashed file as parsed from an index file. -/
structure Object where
  hashed_file_name : String
  size : Nat
deriving DecidableEq

/-- `Object::parent_dir` (`src/hashed.rs` line 70, `src/main.rs` line 64):
`&self.hashed_file_name[..2]`, the first two characters of the hash. -/
def Object.parent_dir (o : Object) : String :=
  String.mk (o.hashed_file_name.data.take 2)

/-- `Object::hashed_file_path` (`src/hashed.rs` line 75):
`[self.parent_dir(), &self.hashed_file_name].iter().collect()`, the
two-component relative path of the object inside the `objects` folder. -/
def Object.hashed_file_path (o : Object) : RPath :=
  ⟨false, [o.parent_dir, o.hashed_file_name]⟩

/-! ### Hashed-asset extraction (`src/hashed.rs`, `HashedSubcommand::execute`) -/

/-- Contents of a file, as raw bytes. -/
abbrev Bytes := List Nat

/-- The observable file-system state seen by `fs::read`: contents at a path,
or `none` when reading that path fails. -/
abbrev ReadFn := RPath → Option Bytes

/-- Record a successful `fs::write` in the read view of the file system. -/
def fsWrite (fs : ReadFn) (p : RPath) (c : Bytes) : ReadFn :=
  fun q => if q = p then some c else fs q

/-- One observable effect of the hashed-extraction loop
(`src/hashed.rs` lines 124-155). -/
inductive HEvent where
  | progress (i total : Nat)
  | mkdirAll (p : RPath)
  | write (p : RPath) (c : Bytes)
  | warnRead (logical : RPath)
  | warnMkdir (logical : RPath)
  | warnWrite (logical : RPath)
deriving DecidableEq

/-- Is this event the per-entry progress print? -/
def HEvent.isProgress : HEvent → Bool
  | .progress _ _ => true
  | _ => false

/-- Failure oracles for the fallible calls of the hashed loop:
`fs::create_dir_all` and `fs::write`. -/
structure HashedEnv where
  mkdirFails : RPath → Bool
  writeFails : RPath → Bool

/-- The body of one iteration of the loop of `HashedSubcommand::execute`
after the progress print (`src/hashed.rs` lines 136-154): read the hashed
file; on success create the output file's parent directories (a failure
only warns) and write the bytes (a failure only warns); on read failure
warn and skip. Returns the events and the updated file-system view. -/
def hashedEntryBody (env : HashedEnv) (read : ReadFn)
    (objects_dir output_dir : RPath) (entry : RPath × Object) :
    List HEvent × ReadFn :=
  match read (objects_dir.join entry.2.hashed_file_path) with
  | some contents =>
      let output_file := output_dir.join entry.1
      let mkdirEvts :=
        match output_file.parent with
        | some par =>
            if env.mkdirFails par then [HEvent.warnMkdir entry.1]
            else [HEvent.mkdirAll par]
        | none => []
      if env.writeFails output_file then
        (mkdirEvts ++ [HEvent.warnWrite entry.1], read)
      else
        (mkdirEvts ++ [HEvent.write output_file contents],
          fsWrite read output_file contents)
  | none => ([HEvent.warnRead entry.1], read)

/-- One full iteration of the loop (`src/hashed.rs` lines 124-155): the
progress print `Extracting {i+1}/{total}`, then the body. -/
def hashedEntryEvents (env : HashedEnv) (read : ReadFn)
    (objects_dir output_dir : RPath) (total i : Nat) (entry : RPath × Object) :
    List HEvent × ReadFn :=
  (HEvent.progress (i + 1) total
      :: (hashedEntryBody env read objects_dir output_dir entry).1,
    (hashedEntryBody env read objects_dir output_dir entry).2)

/-- The loop of `HashedSubcommand::execute` over the index entries, in the
index's iteration order, threading the file-system view. -/
def hashedLoop (env : HashedEnv) (objects_dir output_dir : RPath)
    (total : Nat) : Nat → ReadFn → List (RPath × Object) → List HEvent
  | _, _, [] => []
  | i, read, e :: rest =>
      (hashedEntryEvents env read objects_dir output_dir total i e).1
        ++ hashedLoop env objects_dir output_dir total (i + 1)
            (hashedEntryEvents env read objects_dir output_dir total i e).2 rest

/-- `HashedSubcommand::execute` from the point the index is loaded
(`src/hashed.rs` lines 88-157): push `assets` onto the output root unless
`ignore_top_level`, form the `objects` directory, and run the loop over the
parsed index entries. -/
def hashedExecuteTrace (env : HashedEnv) (read : ReadFn)
    (input_dir output_dir : RPath) (ignore_top_level : Bool)
    (objects : List (RPath × Object)) : List HEvent :=
  let output_dir :=
    if !ignore_top_level then output_dir.join ⟨false, ["assets"]⟩
    else output_dir
  let objects_dir := input_dir.join ⟨false, ["objects"]⟩
  hashedLoop env objects_dir output_dir objects.length 0 read objects

/-! ### Archive extraction (`src/jar.rs`, `extract_jar`) -/

/-- `src/jar.rs` `ExtractedContents`: the `--assets` / `--data` selection. -/
structure ExtractedContents where
  assets : Bool
  data : Bool
deriving DecidableEq

/-- One entry of the opened container: its stored path, whether it is a
directory, its bytes, and its optional Unix permission bits. -/
structure ZipEntryData where
  name : RPath
  isDir : Bool
  content : Bytes
  unixMode : Option Nat
deriving DecidableEq

/-- `ZipFile::enclosed_name`: `none` when the stored path cannot be safely
enclosed in a containing directory (absolute, or containing a `..`
component); otherwise the path itself, relative. -/
def enclosedName (p : RPath) : Option RPath :=
  if p.abs || p.segs.contains ".." then none else some ⟨false, p.segs⟩

/-- `src/jar.rs` lines 85-88: strip the detected common top-level directory
when present, keep the path unchanged when stripping does not apply. -/
def rootStrip (top : Option RPath) (p : RPath) : RPath :=
  match top with
  | some t => (p.stripPre t).getD p
  | none => p

/-- `src/jar.rs` lines 91-95 and 98-102: strip the matched subtree name
when `ignore_top_level` is set, otherwise keep the path. -/
def stripIf (ignore_top_level : Bool) (pre p : RPath) : RPath :=
  if ignore_top_level then (p.stripPre pre).getD p else p

/-- `src/jar.rs` lines 89-106: classify the (root-stripped) path against
the enabled subtrees, in source order (the `assets` arm is tried first),
returning the output-relative path, or `none` for entries matching no
enabled subtree (the loop's `continue`). -/
def selectPath (assets data : Option RPath) (ignore_top_level : Bool)
    (p : RPath) : Option RPath :=
  match assets with
  | some a =>
      if p.startsWith a then some (stripIf ignore_top_level a p)
      else
        match data with
        | some d =>
            if p.startsWith d then some (stripIf ignore_top_level d p) else none
        | none => none
  | none =>
      match data with
      | some d =>
          if p.startsWith d then some (stripIf ignore_top_level d p) else none
      | none => none

/-- One observable effect of `extract_jar`. -/
inductive JEvent where
  | openArchive (jar_file : RPath)
  | progress (p : RPath)
  | mkdirAll (p : RPath)
  | writeFile (p : RPath) (c : Bytes)
  | setPerms (p : RPath) (mode : Nat)
deriving DecidableEq

/-- An error propagated out of `extract_jar` with `?`. -/
inductive JarError where
  | openFail
  | byIndexFail (i : Nat)
  | mkdirFail (p : RPath)
  | createFail (p : RPath)
  | setPermsFail (p : RPath)
deriving DecidableEq

/-- Environment for `extract_jar`: the result of opening the container
(`none` models a `File::open`/`ZipArchive::new`/`root_dir` failure,
otherwise the entry list and the detected common top-level directory), and
failure oracles for the per-entry fallible calls. -/
structure JarEnv where
  openResult : RPath → Option (List ZipEntryData × Option RPath)
  byIndexFails : Nat → Bool
  mkdirFails : RPath → Bool
  createFails : RPath → Bool
  setPermsFails : RPath → Bool

/-- `src/jar.rs` lines 130-136: propagate stored Unix permission bits when
present; a failure of `fs::set_permissions` propagates with `?`. -/
def permsStep (env : JarEnv) (file : ZipEntryData) (output_path : RPath)
    (evts : List JEvent) : List JEvent × Option JarError :=
  match file.unixMode with
  | some mode =>
      if env.setPermsFails output_path then
        (evts, some (JarError.setPermsFail output_path))
      else (evts ++ [JEvent.setPerms output_path mode], none)
  | none => (evts, none)

/-- One iteration of the loop of `extract_jar` (`src/jar.rs` lines 78-137):
read the entry by index (`?`), skip entries with no enclosed name, strip the
common root, classify against the selection (skipping non-matches), then
create the directory or create parent directories and write the file, and
finally propagate permission bits — every failure propagating with `?`. -/
def jarEntryStep (env : JarEnv) (assets data : Option RPath)
    (ignore_top_level : Bool) (top : Option RPath) (output_dir : RPath)
    (i : Nat) (file : ZipEntryData) : List JEvent × Option JarError :=
  if env.byIndexFails i then ([], some (JarError.byIndexFail i))
  else
    match enclosedName file.name with
    | none => ([], none)
    | some path0 =>
        match selectPath assets data ignore_top_level (rootStrip top path0) with
        | none => ([], none)
        | some path =>
            let output_path := output_dir.join path
            if file.isDir then
              if env.mkdirFails output_path then
                ([JEvent.progress path], some (JarError.mkdirFail output_path))
              else
                permsStep env file output_path
                  [JEvent.progress path, JEvent.mkdirAll output_path]
            else
              match output_path.parent with
              | some par =>
                  if env.mkdirFails par then
                    ([JEvent.progress path], some (JarError.mkdirFail par))
                  else if env.createFails output_path then
                    ([JEvent.progress path, JEvent.mkdirAll par],
                      some (JarError.createFail output_path))
                  else
                    permsStep env file output_path
                      [JEvent.progress path, JEvent.mkdirAll par,
                        JEvent.writeFile output_path file.content]
              | none =>
                  if env.createFails output_path then
                    ([JEvent.progress path], some (JarError.createFail output_path))
                  else
                    permsStep env file output_path
                      [JEvent.progress path,
                        JEvent.writeFile output_path file.content]

/-- The entry loop of `extract_jar`: stops at (and returns) the first
propagated error, keeping the events performed up to that point. -/
def jarLoop (env : JarEnv) (assets data : Option RPath)
    (ignore_top_level : Bool) (top : Option RPath) (output_dir : RPath) :
    Nat → List ZipEntryData → List JEvent × Option JarError
  | _, [] => ([], none)
  | i, e :: rest =>
      match (jarEntryStep env assets data ignore_top_level top output_dir i e).2 with
      | some err =>
          ((jarEntryStep env assets data ignore_top_level top output_dir i e).1,
            some err)
      | none =>
          ((jarEntryStep env assets data ignore_top_level top output_dir i e).1
              ++ (jarLoop env assets data ignore_top_level top output_dir
                  (i + 1) rest).1,
            (jarLoop env assets data ignore_top_level top output_dir
                (i + 1) rest).2)

/-- `extract_jar` (`src/jar.rs` lines 59-140): build the enabled-subtree
options from the selection, return success immediately when both are
disabled, otherwise open the container (a failure propagates), detect the
common root, and run the entry loop. -/
def extract_jar (env : JarEnv) (jar_file output_dir : RPath)
    (extracted_contents : ExtractedContents) (ignore_top_level : Bool) :
    List JEvent × Option JarError :=
  let assets : Option RPath :=
    if extracted_contents.assets then some ⟨false, ["assets"]⟩ else none
  let data : Option RPath :=
    if extracted_contents.data then some ⟨false, ["data"]⟩ else none
  if assets.isNone && data.isNone then ([], none)
  else
    match env.openResult jar_file with
    | none => ([], some JarError.openFail)
    | some (entries, top) =>
        (JEvent.openArchive jar_file
            :: (jarLoop env assets data ignore_top_level top output_dir
                0 entries).1,
          (jarLoop env assets data ignore_top_level top output_dir
              0 entries).2)

/-! ### Version-mode extraction (`src/version.rs`) -/

/-- `Option::filter`: keep the value only when the predicate holds. -/
def optFilter (pred : α → Bool) : Option α → Option α
  | some x => if pred x then some x else none
  | none => none

/-- `util.rs` `OptionExt::inspect_mut`: apply an in-place mutation to the
contained value, keeping the option shape. -/
def inspect_mut (o : Option α) (f : α → α) : Option α :=
  match o with
  | some x => some (f x)
  | none => none

/-- Split a character list at `/` boundaries, accumulating the current
(reversed) component. -/
def splitSegs : List Char → List Char → List String
  | cur, [] => [String.mk cur.reverse]
  | cur, c :: rest =>
      if c = '/' then String.mk cur.reverse :: splitSegs [] rest
      else splitSegs (c :: cur) rest

/-- `Path::new(input)` on a textual specifier: leading `/` marks an
absolute path; empty components collapse. -/
def strToPath (s : String) : RPath :=
  ⟨s.data.head? == some '/', (splitSegs [] s.data).filter (fun seg => seg ≠ "")⟩

/-- `src/version.rs` `InvalidVersion`: carries the original specifier. -/
structure InvalidVersion where
  version : String
deriving DecidableEq

/-- The file-system capabilities `Version::parse` consults: `is_dir` checks
and the default `minecraft/versions` directory (`util::versions_dir`,
`none` when no minecraft directory is found). -/
structure ParseEnv where
  isDir : RPath → Bool
  versionsDir : Option RPath

/-- `Version::parse` (`src/version.rs` lines 76-91): use the specifier
itself when it is an existing directory; otherwise push it onto the default
versions directory and use that when it is an existing directory; otherwise
fail with `InvalidVersion` carrying the original specifier. -/
def Version.parse (env : ParseEnv) (input : String) :
    Except InvalidVersion RPath :=
  let path := strToPath input
  if env.isDir path then Except.ok path
  else
    match optFilter env.isDir (inspect_mut env.versionsDir
        fun dir => dir.join path) with
    | some p => Except.ok p
    | none => Except.error ⟨input⟩

/-- `Version::name` (`src/version.rs` lines 54-59):
`self.path().file_name().and_then(OsStr::to_str)`, the version directory's
own final component; `none` models the `Path::file_name` cases with no
final component (a root path, an empty path, a path ending in `..`) — the
source panics (`expect`) on `none` at its call sites. -/
def Version.name (dir : RPath) : Option String :=
  match dir.segs.getLast? with
  | some s => if s = ".." then none else some s
  | none => none

/-- `Version::jar_file` (`src/version.rs` lines 62-64); `none` when
computing `Version::name` panics. -/
def Version.jar_file (dir : RPath) : Option RPath :=
  (Version.name dir).map fun nm => dir.join ⟨false, [nm ++ ".jar"]⟩

/-- `Version::manifest_file` (`src/version.rs` lines 67-69); `none` when
computing `Version::name` panics. -/
def Version.manifest_file (dir : RPath) : Option RPath :=
  (Version.name dir).map fun nm => dir.join ⟨false, [nm ++ ".json"]⟩

/-- `PathBuf::set_extension("json")` on a final component: replace the
extension after the last dot (a dot at position 0 marks an extensionless
hidden file), or append `.json` when there is none. -/
def setExtJson (s : String) : String :=
  let cs := s.data
  match cs.reverse.findIdx? (fun c => c == '.') with
  | some k =>
      let dotPos := cs.length - 1 - k
      if dotPos = 0 then s ++ ".json"
      else String.mk (cs.take dotPos) ++ ".json"
  | none => s ++ ".json"

/-- The index-file path derived in `VersionSubcommand::execute`
(`src/version.rs` lines 151-168): `<hashed_assets>/indexes/<version>.json`. -/
def indexFilePath (hashed_assets_dir : RPath) (index_version : String) : RPath :=
  hashed_assets_dir.join ⟨false, ["indexes", setExtJson index_version]⟩

/-- One observable effect of `VersionSubcommand::execute`. -/
inductive VEvent where
  | manifestRead (p : RPath)
  | indexChecked (p : RPath)
  | jarStart (p : RPath)
  | jarEvt (e : JEvent)
  | hashedStart (p : RPath)
  | hashedEvt (e : HEvent)
deriving DecidableEq

/-- A fatal outcome of `VersionSubcommand::execute`: an `Err` propagated
with `?` (`manifestFail`, `jarFail`), the panicking `assert!` on a missing
index file, the panicking `expect` of the hashed-assets-directory
resolution (`src/version.rs` lines 146-150), or the panicking `expect` in
`Version::name` (`src/version.rs` line 58). -/
inductive VError where
  | manifestFail
  | missingIndex (p : RPath)
  | jarFail (e : JarError)
  | noHashedDir
  | invalidName
deriving DecidableEq

/-- Environment for version-mode extraction: the archive and hashed-loop
oracles, the file-system read view, the `is_dir` check and the platform
default `util::hashed_assets_dir()` used by the hashed-assets-directory
resolution, the manifest parser result, the index existence check, and the
parsed index contents used by the hashed step. -/
structure VersionEnv where
  jar : JarEnv
  hashed : HashedEnv
  read : ReadFn
  isDir : RPath → Bool
  defaultHashedAssetsDir : Option RPath
  manifestParse : RPath → Option String
  indexIsFile : RPath → Bool
  indexObjects : List (RPath × Object)

/-- Modelled from the spec: `extract_hashed_assets`, called by
`VersionSubcommand::execute` at `src/version.rs` line 180, has no
definition under `src/`; spec §4.2 (HashedAssetExtractor) describes it as
the same per-entry copy loop as `HashedSubcommand::execute`
(`src/hashed.rs` lines 88-157), run against a resolved index, the
hashed-object store root and the output root. -/
def extract_hashed_assets (env : HashedEnv) (read : ReadFn)
    (hashed_assets_dir output_dir : RPath) (objects : List (RPath × Object))
    (ignore_top_level : Bool) : List HEvent :=
  hashedExecuteTrace env read hashed_assets_dir output_dir ignore_top_level
    objects

/-- `VersionSubcommand::execute` (`src/version.rs` lines 133-184): return
immediately when nothing is selected; when `assets` is selected, read and
parse the manifest (computing `Version::manifest_file` panics on an invalid
directory name; a read/parse failure is fatal); then — unconditionally,
also for data-only runs — resolve the hashed-assets directory as
`cli.or_else(default).filter(is_dir).expect(..)` (lines 146-150, fatal when
none resolves); when `assets` is selected, derive the index path and
require it to be a file (fatal otherwise); then compute `Version::jar_file`
(its `Version::name` panic is reachable here only for data-only runs) and
run `extract_jar` on it (an error propagates); finally, when an index was
resolved, run the hashed-asset extraction. -/
def versionExecute (env : VersionEnv) (version_dir : RPath)
    (cli_hashed_assets_dir : Option RPath) (output_dir : RPath)
    (ec : ExtractedContents) (ignore_top_level : Bool) :
    List VEvent × Option VError :=
  if !ec.assets && !ec.data then ([], none)
  else
    match
      (if ec.assets then
        match Version.manifest_file version_dir with
        | none => Except.error (([] : List VEvent), VError.invalidName)
        | some manifest_file =>
            match env.manifestParse manifest_file with
            | none =>
                Except.error ([VEvent.manifestRead manifest_file],
                  VError.manifestFail)
            | some index_version =>
                Except.ok ([VEvent.manifestRead manifest_file],
                  some index_version)
      else Except.ok (([] : List VEvent), (none : Option String))) with
    | Except.error pair => (pair.1, some pair.2)
    | Except.ok pair =>
        match optFilter env.isDir
            (cli_hashed_assets_dir.orElse fun _ =>
              env.defaultHashedAssetsDir) with
        | none => (pair.1, some VError.noHashedDir)
        | some hashed_assets_dir =>
            match
              (match pair.2 with
              | some index_version =>
                  let index_path :=
                    indexFilePath hashed_assets_dir index_version
                  if env.indexIsFile index_path then Except.ok (some index_path)
                  else Except.error index_path
              | none => Except.ok (none : Option RPath)) with
            | Except.error index_path =>
                (pair.1 ++ [VEvent.indexChecked index_path],
                  some (VError.missingIndex index_path))
            | Except.ok index =>
                let evts1 := pair.1 ++ (match index with
                  | some index_path => [VEvent.indexChecked index_path]
                  | none => [])
                match Version.jar_file version_dir with
                | none => (evts1, some VError.invalidName)
                | some jar_file =>
                    match (extract_jar env.jar jar_file output_dir ec
                        ignore_top_level).2 with
                    | some e =>
                        (evts1 ++ VEvent.jarStart jar_file
                            :: (extract_jar env.jar jar_file output_dir ec
                                ignore_top_level).1.map VEvent.jarEvt,
                          some (VError.jarFail e))
                    | none =>
                        match index with
                        | some index_path =>
                            (evts1 ++ VEvent.jarStart jar_file
                                :: (extract_jar env.jar jar_file output_dir ec
                                    ignore_top_level).1.map VEvent.jarEvt
                              ++ VEvent.hashedStart index_path
                                  :: (extract_hashed_assets env.hashed env.read
                                      hashed_assets_dir output_dir
                                      env.indexObjects ignore_top_level).map
                                      VEvent.hashedEvt,
                              none)
                        | none =>
                            (evts1 ++ VEvent.jarStart jar_file
                                :: (extract_jar env.jar jar_file output_dir ec
                                    ignore_top_level).1.map VEvent.jarEvt,
                              none)

/-! ## Theorems: the hashed-object storage layout (C2) -/

/-- C2: the bucket folder is the first two characters of the hash and the
storage path inside the objects directory is `<hash[0:2]>/<hash>`. -/
theorem object_bucket_and_storage_path (o : Object)
    (h : 2 ≤ o.hashed_file_name.data.length) :
    o.parent_dir.data = o.hashed_file_name.data.take 2 ∧
    o.parent_dir.data.length = 2 ∧
    o.parent_dir.data <+: o.hashed_file_name.data ∧
    o.hashed_file_path.segs = [o.parent_dir, o.hashed_file_name] ∧
    renderSegs o.hashed_file_path.segs
      = o.parent_dir ++ "/" ++ o.hashed_file_name := by
  refine ⟨rfl, ?_, ?_, rfl, rfl⟩
  · show (o.hashed_file_name.data.take 2).length = 2
    rw [List.length_take]
    omega
  · exact List.take_prefix 2 o.hashed_file_name.data

/-- Witness for C2 on a concrete object. -/
theorem object_bucket_and_storage_path_witness :
    let o : Object := ⟨"ab12cd", 10⟩
    o.parent_dir.data = o.hashed_file_name.data.take 2 ∧
    o.parent_dir.data.length = 2 ∧
    o.parent_dir.data <+: o.hashed_file_name.data ∧
    o.hashed_file_path.segs = [o.parent_dir, o.hashed_file_name] ∧
    renderSegs o.hashed_file_path.segs
      = o.parent_dir ++ "/" ++ o.hashed_file_name :=
  object_bucket_and_storage_path ⟨"ab12cd", 10⟩ (by decide)

/-! ## Theorems: the hashed-extraction loop (C1, C9) -/

theorem hashedEntryBody_progress_free (env : HashedEnv) (read : ReadFn)
    (oD wD : RPath) (e : RPath × Object) :
    (hashedEntryBody env read oD wD e).1.filter HEvent.isProgress = [] := by
  unfold hashedEntryBody
  cases h : read (oD.join e.2.hashed_file_path) with
  | none => rfl
  | some contents =>
      simp only
      cases hp : (wD.join e.1).parent with
      | none =>
          by_cases hw : env.writeFails (wD.join e.1) <;>
            simp [hw, HEvent.isProgress]
      | some par =>
          by_cases hm : env.mkdirFails par <;>
            by_cases hw : env.writeFails (wD.join e.1) <;>
              simp [hm, hw, HEvent.isProgress]

theorem hashedLoop_progress (env : HashedEnv) (oD wD : RPath) (total : Nat) :
    ∀ (l : List (RPath × Object)) (i : Nat) (read : ReadFn),
      (hashedLoop env oD wD total i read l).filter HEvent.isProgress
        = (List.range l.length).map fun k => HEvent.progress (i + k + 1) total := by
  intro l
  induction l with
  | nil => intro i read; rfl
  | cons e rest ih =>
      intro i read
      unfold hashedLoop hashedEntryEvents
      simp only [List.length_cons, List.filter_append, List.filter_cons,
        hashedEntryBody_progress_free, List.nil_append]
      rw [ih (i + 1)]
      rw [List.range_succ_eq_map, List.map_cons, List.map_map]
      simp only [HEvent.isProgress, if_true]
      refine congrArg₂ List.cons rfl ?_
      apply List.map_congr_left
      intro k _
      simp only [Function.comp_apply]
      congr 1
      omega

theorem hashedEntryBody_write_target (env : HashedEnv) (read : ReadFn)
    (oD wD : RPath) (e : RPath × Object) (p : RPath) (c : Bytes)
    (hmem : HEvent.write p c ∈ (hashedEntryBody env read oD wD e).1) :
    p = wD.join e.1 := by
  unfold hashedEntryBody at hmem
  cases h : read (oD.join e.2.hashed_file_path) with
  | none => rw [h] at hmem; simp at hmem
  | some contents =>
      rw [h] at hmem
      simp only at hmem
      cases hp : (wD.join e.1).parent with
      | none =>
          rw [hp] at hmem
          by_cases hw : env.writeFails (wD.join e.1)
          · simp [hw] at hmem
          · simp [hw] at hmem
            exact hmem.1
      | some par =>
          rw [hp] at hmem
          by_cases hm : env.mkdirFails par <;>
            by_cases hw : env.writeFails (wD.join e.1)
          · simp [hm, hw] at hmem
          · simp [hm, hw] at hmem
            exact hmem.1
          · simp [hm, hw] at hmem
          · simp [hm, hw] at hmem
            exact hmem.1

theorem hashedLoop_write_target (env : HashedEnv) (oD wD : RPath) (total : Nat) :
    ∀ (l : List (RPath × Object)) (i : Nat) (read : ReadFn) (p : RPath) (c : Bytes),
      HEvent.write p c ∈ hashedLoop env oD wD total i read l →
        ∃ fp o, (fp, o) ∈ l ∧ p = wD.join fp := by
  intro l
  induction l with
  | nil => intro i read p c hmem; simp [hashedLoop] at hmem
  | cons e rest ih =>
      intro i read p c hmem
      unfold hashedLoop hashedEntryEvents at hmem
      simp only [List.cons_append, List.mem_cons, List.mem_append] at hmem
      rcases hmem with h1 | h2 | h3
      · exact absurd h1 (by simp)
      · exact ⟨e.1, e.2, by simp,
          hashedEntryBody_write_target env read oD wD e p c h2⟩
      · obtain ⟨fp, o, hm, hp⟩ := ih (i + 1) _ p c h3
        exact ⟨fp, o, List.mem_cons_of_mem _ hm, hp⟩

/-- C1: for every loaded index with `N` entries the loop attempts exactly
`N` entries, one progress print per entry in iteration order, regardless of
the failure oracles; a read failure produces exactly a warning naming the
logical path, a parent-directory-creation failure a warning (the write is
still attempted), and a write failure a warning — none of them stops the
loop, whose progress prints stay `1..N` whatever the oracles say. -/
theorem hashed_loop_attempts_every_entry
    (env : HashedEnv) (read : ReadFn) (input_dir output_dir : RPath)
    (ignore_top_level : Bool) (objects : List (RPath × Object)) :
    ((hashedExecuteTrace env read input_dir output_dir ignore_top_level
          objects).filter HEvent.isProgress
      = (List.range objects.length).map fun k =>
          HEvent.progress (k + 1) objects.length)
    ∧ (∀ (read' : ReadFn) (oD wD : RPath) (total i : Nat) (fp : RPath) (o : Object),
        read' (oD.join o.hashed_file_path) = none →
          (hashedEntryEvents env read' oD wD total i (fp, o)).1
            = [HEvent.progress (i + 1) total, HEvent.warnRead fp])
    ∧ (∀ (read' : ReadFn) (oD wD : RPath) (total i : Nat) (fp : RPath) (o : Object)
        (c : Bytes) (par : RPath),
        read' (oD.join o.hashed_file_path) = some c →
        (wD.join fp).parent = some par →
        env.mkdirFails par = true →
        env.writeFails (wD.join fp) = false →
          (hashedEntryEvents env read' oD wD total i (fp, o)).1
            = [HEvent.progress (i + 1) total, HEvent.warnMkdir fp,
                HEvent.write (wD.join fp) c])
    ∧ (∀ (read' : ReadFn) (oD wD : RPath) (total i : Nat) (fp : RPath) (o : Object)
        (c : Bytes) (par : RPath),
        read' (oD.join o.hashed_file_path) = some c →
        (wD.join fp).parent = some par →
        env.mkdirFails par = false →
        env.writeFails (wD.join fp) = true →
          (hashedEntryEvents env read' oD wD total i (fp, o)).1
            = [HEvent.progress (i + 1) total, HEvent.mkdirAll par,
                HEvent.warnWrite fp]) := by
  refine ⟨?_, ?_, ?_, ?_⟩
  · unfold hashedExecuteTrace
    rw [hashedLoop_progress]
    apply List.map_congr_left
    intro k _
    congr 1
    omega
  · intro read' oD wD total i fp o hread
    unfold hashedEntryEvents hashedEntryBody
    simp [hread]
  · intro read' oD wD total i fp o c par hread hpar hm hw
    unfold hashedEntryEvents hashedEntryBody
    simp [hread, hpar, hm, hw]
  · intro read' oD wD total i fp o c par hread hpar hm hw
    unfold hashedEntryEvents hashedEntryBody
    simp [hread, hpar, hm, hw]

/-- Witness for C1: a concrete three-entry index where the second entry's
hashed object is unreadable still reports progress `1/3 2/3 3/3`, and the
failing entry's events are exactly the progress print and the warning. -/
theorem hashed_loop_attempts_every_entry_witness :
    ((hashedExecuteTrace ⟨fun _ => false, fun _ => false⟩
          (fun p => if p = (RPath.join ⟨false, ["in", "objects"]⟩
              (Object.hashed_file_path ⟨"bb22", 1⟩)) then none else some [7])
          ⟨false, ["in"]⟩ ⟨false, ["out"]⟩ true
          [(⟨false, ["a.txt"]⟩, ⟨"aa11", 1⟩), (⟨false, ["b.txt"]⟩, ⟨"bb22", 1⟩),
            (⟨false, ["c.txt"]⟩, ⟨"cc33", 1⟩)]).filter HEvent.isProgress
      = [HEvent.progress 1 3, HEvent.progress 2 3, HEvent.progress 3 3])
    ∧ ((hashedEntryEvents ⟨fun _ => false, fun _ => false⟩ (fun _ => none)
          ⟨false, ["in", "objects"]⟩ ⟨false, ["out"]⟩ 3 1
          (⟨false, ["b.txt"]⟩, ⟨"bb22", 1⟩)).1
        = [HEvent.progress 2 3, HEvent.warnRead ⟨false, ["b.txt"]⟩]) := by
  constructor
  · exact (hashed_loop_attempts_every_entry ⟨fun _ => false, fun _ => false⟩
      (fun p => if p = (RPath.join ⟨false, ["in", "objects"]⟩
          (Object.hashed_file_path ⟨"bb22", 1⟩)) then none else some [7])
      ⟨false, ["in"]⟩ ⟨false, ["out"]⟩ true
      [(⟨false, ["a.txt"]⟩, ⟨"aa11", 1⟩), (⟨false, ["b.txt"]⟩, ⟨"bb22", 1⟩),
        (⟨false, ["c.txt"]⟩, ⟨"cc33", 1⟩)]).1
  · exact (hashed_loop_attempts_every_entry ⟨fun _ => false, fun _ => false⟩
      (fun _ => none) ⟨false, ["in"]⟩ ⟨false, ["out"]⟩ true []).2.1
      (fun _ => none) ⟨false, ["in", "objects"]⟩ ⟨false, ["out"]⟩ 3 1
      ⟨false, ["b.txt"]⟩ ⟨"bb22", 1⟩ rfl

/-- C9: every file written by the hashed extractor lands at
`output_root/assets/<logical_path>` when `ignore_top_level` is false and at
`output_root/<logical_path>` when it is true, for some entry of the index
(`src/hashed.rs` lines 88-93 and 136-148). -/
theorem hashed_output_under_assets
    (env : HashedEnv) (read : ReadFn) (input_dir output_dir : RPath)
    (ignore_top_level : Bool) (objects : List (RPath × Object))
    (p : RPath) (c : Bytes)
    (hmem : HEvent.write p c ∈
      hashedExecuteTrace env read input_dir output_dir ignore_top_level objects) :
    ∃ fp o, (fp, o) ∈ objects ∧
      p = (if ignore_top_level then output_dir
            else output_dir.join ⟨false, ["assets"]⟩).join fp := by
  unfold hashedExecuteTrace at hmem
  cases ignore_top_level with
  | false =>
      simp only [Bool.not_false, if_true, if_false] at hmem ⊢
      exact hashedLoop_write_target env _ _ _ objects 0 read p c hmem
  | true =>
      simp only [Bool.not_true, if_false, if_true] at hmem ⊢
      exact hashedLoop_write_target env _ _ _ objects 0 read p c hmem

/-- Witness for C9: in a concrete run with `ignore_top_level = false`, the
single write lands under `out/assets/`. -/
theorem hashed_output_under_assets_witness :
    ∃ fp o,
      (fp, o) ∈ [((⟨false, ["icons", "icon.png"]⟩ : RPath), (⟨"aa11", 1⟩ : Object))] ∧
      (⟨false, ["out", "assets", "icons", "icon.png"]⟩ : RPath)
        = (if false then ⟨false, ["out"]⟩
            else RPath.join ⟨false, ["out"]⟩ ⟨false, ["assets"]⟩).join fp :=
  hashed_output_under_assets ⟨fun _ => false, fun _ => false⟩ (fun _ => some [3])
    ⟨false, ["in"]⟩ ⟨false, ["out"]⟩ false
    [(⟨false, ["icons", "icon.png"]⟩, ⟨"aa11", 1⟩)]
    ⟨false, ["out", "assets", "icons", "icon.png"]⟩ [3] (by decide)

/-! ## Theorems: archive subtree selection and common-root stripping (C4, C6) -/

theorem startsWith_single {s : String} {p : RPath}
    (h : p.startsWith ⟨false, [s]⟩ = true) :
    p.abs = false ∧ p.segs.head? = some s := by
  unfold RPath.startsWith at h
  simp only [Bool.and_eq_true, beq_iff_eq] at h
  obtain ⟨h1, h2⟩ := h
  refine ⟨h1.symm, ?_⟩
  cases hs : p.segs with
  | nil => rw [hs] at h2; simp [List.isPrefixOf] at h2
  | cons a t =>
      rw [hs] at h2
      simp only [List.isPrefixOf, Bool.and_eq_true, beq_iff_eq] at h2
      simp [h2.1]

theorem stripPre_of_startsWith {p pre : RPath} (h : p.startsWith pre = true) :
    p.stripPre pre = some ⟨false, p.segs.drop pre.segs.length⟩ := by
  unfold RPath.stripPre
  rw [h]
  rfl

/-- C4 counterexample: an archive entry `assets/assets/x.txt` selected via
`assets` with `ignore_top_level = true` is written to
`<output_root>/assets/x.txt` — its output path relative to the output root
still begins with an `assets` segment, because only the one matched subtree
segment is stripped. -/
theorem jar_subtree_strip_counterexample :
    (extract_jar
        ⟨fun _ => some
            ([⟨⟨false, ["assets", "assets", "x.txt"]⟩, false, [1], none⟩], none),
          fun _ => false, fun _ => false, fun _ => false, fun _ => false⟩
        ⟨false, ["v.jar"]⟩ ⟨false, ["out"]⟩ ⟨true, false⟩ true
      = ([JEvent.openArchive ⟨false, ["v.jar"]⟩,
          JEvent.progress ⟨false, ["assets", "x.txt"]⟩,
          JEvent.mkdirAll ⟨false, ["out", "assets"]⟩,
          JEvent.writeFile ⟨false, ["out", "assets", "x.txt"]⟩ [1]], none))
    ∧ (⟨false, ["assets", "x.txt"]⟩ : RPath).segs.head? = some "assets" := by
  constructor
  · rfl
  · rfl

/-- C4 (amended): for an entry selected under an enabled subtree, when
`ignore_top_level` is true the output path relative to the output root is
the entry's (root-stripped) path with exactly its first segment — the
matched subtree name — removed; when false it is the path unchanged, which
begins with the subtree's segment. Symmetric for `assets` and `data`; the
`data` arm applies when the `assets` arm does not. -/
theorem jar_subtree_strip_amended :
    (∀ (data : Option RPath) (p : RPath),
      p.startsWith ⟨false, ["assets"]⟩ = true →
        selectPath (some ⟨false, ["assets"]⟩) data true p
            = some ⟨false, p.segs.drop 1⟩
        ∧ selectPath (some ⟨false, ["assets"]⟩) data false p = some p
        ∧ p.segs.head? = some "assets")
    ∧ (∀ (ab : Bool) (p : RPath),
      p.startsWith ⟨false, ["data"]⟩ = true →
      (ab = true → p.startsWith ⟨false, ["assets"]⟩ = false) →
        selectPath (if ab then some ⟨false, ["assets"]⟩ else none)
            (some ⟨false, ["data"]⟩) true p = some ⟨false, p.segs.drop 1⟩
        ∧ selectPath (if ab then some ⟨false, ["assets"]⟩ else none)
            (some ⟨false, ["data"]⟩) false p = some p
        ∧ p.segs.head? = some "data") := by
  constructor
  · intro data p h
    refine ⟨?_, ?_, (startsWith_single h).2⟩
    · simp only [selectPath, h, if_true, stripIf, stripPre_of_startsWith h]
      rfl
    · simp [selectPath, h, stripIf]
  · intro ab p h hna
    cases ab with
    | false =>
        refine ⟨?_, ?_, (startsWith_single h).2⟩
        · simp only [if_false, selectPath, h, if_true, stripIf,
            stripPre_of_startsWith h]
          rfl
        · simp [selectPath, h, stripIf]
    | true =>
        have hna' := hna rfl
        refine ⟨?_, ?_, (startsWith_single h).2⟩
        · simp only [if_true, selectPath, hna', Bool.false_eq_true, if_false,
            h, stripIf, stripPre_of_startsWith h]
          rfl
        · simp [selectPath, h, hna', stripIf]

/-- Witness for the amended C4: concrete entries under `assets` and `data`. -/
theorem jar_subtree_strip_amended_witness :
    (selectPath (some ⟨false, ["assets"]⟩) none true
        ⟨false, ["assets", "icons", "icon.png"]⟩
      = some ⟨false, ["icons", "icon.png"]⟩)
    ∧ (selectPath (some ⟨false, ["assets"]⟩) (some ⟨false, ["data"]⟩) false
        ⟨false, ["data", "tags", "blocks.json"]⟩
      = some ⟨false, ["data", "tags", "blocks.json"]⟩) := by
  constructor
  · exact (jar_subtree_strip_amended.1 none
      ⟨false, ["assets", "icons", "icon.png"]⟩ (by decide)).1
  · exact ((jar_subtree_strip_amended.2 true
      ⟨false, ["data", "tags", "blocks.json"]⟩ (by decide)
      (fun _ => by decide)).2).1

/-- C6: when every entry of the archive shares the single top-level
directory `r` (detected as the common root), the root segment is stripped
from the entry's path before subtree classification and output-path
construction — processing the entry with common root `r` is identical to
processing the pre-stripped entry with no common root, for both values of
`ignore_top_level` (which is universally quantified here). -/
theorem jar_common_root_stripped
    (env : JarEnv) (assets data : Option RPath) (ignore_top_level : Bool)
    (output_dir : RPath) (i : Nat) (e : ZipEntryData) (r : String)
    (t : List String)
    (habs : e.name.abs = false) (hsegs : e.name.segs = r :: t)
    (hdd : ".." ∉ e.name.segs) :
    jarEntryStep env assets data ignore_top_level (some ⟨false, [r]⟩)
        output_dir i e
      = jarEntryStep env assets data ignore_top_level none output_dir i
          { e with name := ⟨false, t⟩ } := by
  have hc : e.name.segs.contains ".." = false := by simpa using hdd
  have hct : t.contains ".." = false := by
    have : ".." ∉ t := fun hm => hdd (by rw [hsegs]; exact List.mem_cons_of_mem _ hm)
    simpa using this
  have h1 : enclosedName e.name = some ⟨false, r :: t⟩ := by
    unfold enclosedName
    rw [habs, hc, hsegs]
    rfl
  have h2 : enclosedName ⟨false, t⟩ = some ⟨false, t⟩ := by
    unfold enclosedName
    simp only [hct]
    rfl
  have h3 : rootStrip (some ⟨false, [r]⟩) ⟨false, r :: t⟩ = ⟨false, t⟩ := by
    unfold rootStrip RPath.stripPre RPath.startsWith
    simp [List.isPrefixOf]
  unfold jarEntryStep
  simp only [h1, h2, h3,
    show rootStrip none (⟨false, t⟩ : RPath) = ⟨false, t⟩ from rfl]
  rfl

/-- Witness for C6 on a concrete entry nested under a common root. -/
theorem jar_common_root_stripped_witness :
    jarEntryStep
        ⟨fun _ => none, fun _ => false, fun _ => false, fun _ => false,
          fun _ => false⟩
        (some ⟨false, ["assets"]⟩) none true (some ⟨false, ["1.20.1"]⟩)
        ⟨false, ["out"]⟩ 0
        ⟨⟨false, ["1.20.1", "assets", "x.txt"]⟩, false, [2], none⟩
      = jarEntryStep
          ⟨fun _ => none, fun _ => false, fun _ => false, fun _ => false,
            fun _ => false⟩
          (some ⟨false, ["assets"]⟩) none true none ⟨false, ["out"]⟩ 0
          ⟨⟨false, ["assets", "x.txt"]⟩, false, [2], none⟩ :=
  jar_common_root_stripped
    ⟨fun _ => none, fun _ => false, fun _ => false, fun _ => false,
      fun _ => false⟩
    (some ⟨false, ["assets"]⟩) none true ⟨false, ["out"]⟩ 0
    ⟨⟨false, ["1.20.1", "assets", "x.txt"]⟩, false, [2], none⟩ "1.20.1"
    ["assets", "x.txt"] rfl rfl (by decide)

/-! ## Theorems: archive error propagation (C7) -/

/-- C7: during archive extraction every failure is fatal for the whole
call: a failed container open returns the error with no entry processed; a
failing entry makes the loop return that entry's error, performing none of
the remaining entries' work; and `extract_jar` returns the loop's error.
(Unlike the hashed extractor, there is no per-entry skip-and-continue.) -/
theorem jar_error_propagation
    (env : JarEnv) (jar_file output_dir : RPath) (ec : ExtractedContents)
    (ignore_top_level : Bool) :
    ((ec.assets || ec.data) = true → env.openResult jar_file = none →
      extract_jar env jar_file output_dir ec ignore_top_level
        = ([], some JarError.openFail))
    ∧ (∀ (assets data top : Option RPath) (i : Nat) (e : ZipEntryData)
        (rest : List ZipEntryData) (err : JarError),
        (jarEntryStep env assets data ignore_top_level top output_dir i e).2
            = some err →
          jarLoop env assets data ignore_top_level top output_dir i (e :: rest)
            = ((jarEntryStep env assets data ignore_top_level top output_dir
                i e).1,
              some err))
    ∧ (∀ (entries : List ZipEntryData) (top : Option RPath) (err : JarError),
        (ec.assets || ec.data) = true →
        env.openResult jar_file = some (entries, top) →
        (jarLoop env (if ec.assets then some ⟨false, ["assets"]⟩ else none)
            (if ec.data then some ⟨false, ["data"]⟩ else none)
            ignore_top_level top output_dir 0 entries).2 = some err →
          extract_jar env jar_file output_dir ec ignore_top_level
            = (JEvent.openArchive jar_file
                :: (jarLoop env
                    (if ec.assets then some ⟨false, ["assets"]⟩ else none)
                    (if ec.data then some ⟨false, ["data"]⟩ else none)
                    ignore_top_level top output_dir 0 entries).1,
              some err)) := by
  refine ⟨?_, ?_, ?_⟩
  · intro hsel hopen
    unfold extract_jar
    cases ha : ec.assets <;> cases hd : ec.data <;>
      simp_all [extract_jar, hopen]
  · intro assets data top i e rest err hstep
    unfold jarLoop
    simp [hstep]
  · intro entries top err hsel hopen hloop
    unfold extract_jar
    cases ha : ec.assets <;> cases hd : ec.data <;>
      simp_all [extract_jar, hopen, hloop]

/-- Witness for C7: a concrete archive whose second entry fails to write
aborts the whole extraction with that error, leaving the third entry
unprocessed. -/
theorem jar_error_propagation_witness :
    jarLoop
        ⟨fun _ => none, fun _ => false, fun _ => false,
          fun p => p = ⟨false, ["out", "assets", "b.txt"]⟩, fun _ => false⟩
        (some ⟨false, ["assets"]⟩) none false none ⟨false, ["out"]⟩ 0
        [⟨⟨false, ["assets", "b.txt"]⟩, false, [5], none⟩,
          ⟨⟨false, ["assets", "c.txt"]⟩, false, [6], none⟩]
      = ([JEvent.progress ⟨false, ["assets", "b.txt"]⟩,
          JEvent.mkdirAll ⟨false, ["out", "assets"]⟩],
        some (JarError.createFail ⟨false, ["out", "assets", "b.txt"]⟩)) := by
  have h := (jar_error_propagation
      ⟨fun _ => none, fun _ => false, fun _ => false,
        fun p => p = ⟨false, ["out", "assets", "b.txt"]⟩, fun _ => false⟩
      ⟨false, ["v.jar"]⟩ ⟨false, ["out"]⟩ ⟨true, false⟩ false).2.1
    (some ⟨false, ["assets"]⟩) none none 0
    ⟨⟨false, ["assets", "b.txt"]⟩, false, [5], none⟩
    [⟨⟨false, ["assets", "c.txt"]⟩, false, [6], none⟩]
    (JarError.createFail ⟨false, ["out", "assets", "b.txt"]⟩) (by decide)
  rw [h]
  decide

/-! ## Theorems: archive output-path confinement (C10) -/

theorem enclosedName_some {n p : RPath} (h : enclosedName n = some p) :
    p.abs = false ∧ ".." ∉ p.segs := by
  unfold enclosedName at h
  by_cases hc : (n.abs || n.segs.contains "..") = true
  · rw [if_pos hc] at h
    exact absurd h (by simp)
  · rw [if_neg hc] at h
    injection h with h
    subst h
    refine ⟨rfl, ?_⟩
    simp only [Bool.or_eq_true, not_or] at hc
    have := hc.2
    simpa using this

theorem parent_eq {q par : RPath} (h : q.parent = some par) :
    par = ⟨q.abs, q.segs.dropLast⟩ := by
  unfold RPath.parent at h
  cases hs : q.segs with
  | nil => rw [hs] at h; exact absurd h (by simp)
  | cons a t =>
      rw [hs] at h
      injection h with h
      subst h
      rfl

theorem stripPreGetD_safe (t : RPath) {p : RPath}
    (habs : p.abs = false) (hdd : ".." ∉ p.segs) :
    ((p.stripPre t).getD p).abs = false
      ∧ ".." ∉ ((p.stripPre t).getD p).segs := by
  unfold RPath.stripPre
  by_cases hs : p.startsWith t = true
  · rw [if_pos hs, Option.getD_some]
    refine ⟨rfl, ?_⟩
    intro hm
    exact hdd ((List.drop_sublist t.segs.length p.segs).subset hm)
  · rw [if_neg hs, Option.getD_none]
    exact ⟨habs, hdd⟩

theorem rootStrip_safe (top : Option RPath) {p : RPath}
    (habs : p.abs = false) (hdd : ".." ∉ p.segs) :
    (rootStrip top p).abs = false ∧ ".." ∉ (rootStrip top p).segs := by
  cases top with
  | none => exact ⟨habs, hdd⟩
  | some t => exact stripPreGetD_safe t habs hdd

theorem stripIf_safe (ign : Bool) (pre : RPath) {p : RPath}
    (habs : p.abs = false) (hdd : ".." ∉ p.segs) :
    (stripIf ign pre p).abs = false ∧ ".." ∉ (stripIf ign pre p).segs := by
  cases ign with
  | false => exact ⟨habs, hdd⟩
  | true => exact stripPreGetD_safe pre habs hdd

theorem selectPath_safe {a d : Option RPath} {ign : Bool} {p q : RPath}
    (h : selectPath a d ign p = some q)
    (habs : p.abs = false) (hdd : ".." ∉ p.segs) :
    q.abs = false ∧ ".." ∉ q.segs := by
  unfold selectPath at h
  repeat' split at h
  all_goals first
    | (injection h with h; subst h; exact stripIf_safe ign _ habs hdd)
    | injection h

theorem permsStep_mem {env : JarEnv} {f : ZipEntryData} {q : RPath}
    {evts : List JEvent} {ev : JEvent}
    (h : ev ∈ (permsStep env f q evts).1) :
    ev ∈ evts ∨ ∃ m, ev = JEvent.setPerms q m := by
  unfold permsStep at h
  cases hm : f.unixMode with
  | none =>
      simp only [hm] at h
      exact Or.inl h
  | some mode =>
      simp only [hm] at h
      by_cases hf : env.setPermsFails q = true
      · rw [if_pos hf] at h
        exact Or.inl h
      · rw [if_neg hf] at h
        simp only [List.mem_append, List.mem_singleton] at h
        rcases h with h1 | h2
        · exact Or.inl h1
        · exact Or.inr ⟨mode, h2⟩

/-- Every event of one entry step targets a path derived from a safe
selected relative path: the output root joined with it (or, for a file's
parent-directory creation, that same path with its last component
dropped). -/
theorem jarEntryStep_event_paths {env : JarEnv} {a d : Option RPath}
    {ign : Bool} {top : Option RPath} {out : RPath} {i : Nat}
    {e : ZipEntryData} {ev : JEvent}
    (h : ev ∈ (jarEntryStep env a d ign top out i e).1) :
    ∃ rel : RPath, rel.abs = false ∧ ".." ∉ rel.segs ∧
      (ev = JEvent.progress rel
        ∨ ev = JEvent.mkdirAll (out.join rel)
        ∨ ev = JEvent.mkdirAll ⟨(out.join rel).abs, (out.join rel).segs.dropLast⟩
        ∨ ev = JEvent.writeFile (out.join rel) e.content
        ∨ ∃ m, ev = JEvent.setPerms (out.join rel) m) := by
  unfold jarEntryStep at h
  cases hb : env.byIndexFails i with
  | true => simp [hb] at h
  | false =>
      simp only [hb, Bool.false_eq_true, if_false] at h
      cases henc : enclosedName e.name with
      | none =>
          simp only [henc] at h
          simp at h
      | some p0 =>
          simp only [henc] at h
          obtain ⟨hab0, hdd0⟩ := enclosedName_some henc
          obtain ⟨hab1, hdd1⟩ := rootStrip_safe top hab0 hdd0
          cases hsel : selectPath a d ign (rootStrip top p0) with
          | none =>
              simp only [hsel] at h
              simp at h
          | some path =>
              simp only [hsel] at h
              obtain ⟨habP, hddP⟩ := selectPath_safe hsel hab1 hdd1
              refine ⟨path, habP, hddP, ?_⟩
              cases hdir : e.isDir with
              | true =>
                  simp only [hdir, if_true] at h
                  by_cases hmf : env.mkdirFails (out.join path) = true
                  · rw [if_pos hmf] at h
                    simp only [List.mem_singleton] at h
                    exact Or.inl h
                  · rw [if_neg hmf] at h
                    rcases permsStep_mem h with h1 | h2
                    · rcases List.mem_cons.mp h1 with h3 | h4
                      · exact Or.inl h3
                      · simp only [List.mem_singleton] at h4
                        exact Or.inr (Or.inl h4)
                    · exact Or.inr (Or.inr (Or.inr (Or.inr h2)))
              | false =>
                  simp only [hdir, Bool.false_eq_true, if_false] at h
                  cases hpar : (out.join path).parent with
                  | some par =>
                      simp only [hpar] at h
                      have hpe := parent_eq hpar
                      by_cases hmf : env.mkdirFails par = true
                      · rw [if_pos hmf] at h
                        simp only [List.mem_singleton] at h
                        exact Or.inl h
                      · rw [if_neg hmf] at h
                        by_cases hcf : env.createFails (out.join path) = true
                        · rw [if_pos hcf] at h
                          rcases List.mem_cons.mp h with h3 | h4
                          · exact Or.inl h3
                          · simp only [List.mem_singleton] at h4
                            subst hpe
                            exact Or.inr (Or.inr (Or.inl h4))
                        · rw [if_neg hcf] at h
                          rcases permsStep_mem h with h1 | h2
                          · rcases List.mem_cons.mp h1 with h3 | h4
                            · exact Or.inl h3
                            · rcases List.mem_cons.mp h4 with h5 | h6
                              · subst hpe
                                exact Or.inr (Or.inr (Or.inl h5))
                              · simp only [List.mem_singleton] at h6
                                exact Or.inr (Or.inr (Or.inr (Or.inl h6)))
                          · exact Or.inr (Or.inr (Or.inr (Or.inr h2)))
                  | none =>
                      simp only [hpar] at h
                      by_cases hcf : env.createFails (out.join path) = true
                      · rw [if_pos hcf] at h
                        simp only [List.mem_singleton] at h
                        exact Or.inl h
                      · rw [if_neg hcf] at h
                        rcases permsStep_mem h with h1 | h2
                        · rcases List.mem_cons.mp h1 with h3 | h4
                          · exact Or.inl h3
                          · simp only [List.mem_singleton] at h4
                            exact Or.inr (Or.inr (Or.inr (Or.inl h4)))
                        · exact Or.inr (Or.inr (Or.inr (Or.inr h2)))

theorem jarLoop_event_paths {env : JarEnv} {a d : Option RPath} {ign : Bool}
    {top : Option RPath} {out : RPath} :
    ∀ (l : List ZipEntryData) (i : Nat) (ev : JEvent),
      ev ∈ (jarLoop env a d ign top out i l).1 →
        ∃ (rel : RPath) (c : Bytes), rel.abs = false ∧ ".." ∉ rel.segs ∧
          (ev = JEvent.progress rel
            ∨ ev = JEvent.mkdirAll (out.join rel)
            ∨ ev = JEvent.mkdirAll ⟨(out.join rel).abs, (out.join rel).segs.dropLast⟩
            ∨ ev = JEvent.writeFile (out.join rel) c
            ∨ ∃ m, ev = JEvent.setPerms (out.join rel) m) := by
  intro l
  induction l with
  | nil => intro i ev h; simp [jarLoop] at h
  | cons e rest ih =>
      intro i ev h
      unfold jarLoop at h
      cases herr : (jarEntryStep env a d ign top out i e).2 with
      | some err =>
          simp only [herr] at h
          obtain ⟨rel, h1, h2, h3⟩ := jarEntryStep_event_paths h
          exact ⟨rel, e.content, h1, h2, h3⟩
      | none =>
          simp only [herr, List.mem_append] at h
          rcases h with h | h
          · obtain ⟨rel, h1, h2, h3⟩ := jarEntryStep_event_paths h
            exact ⟨rel, e.content, h1, h2, h3⟩
          · exact ih (i + 1) ev h

/-- C10 counterexample: a safe file entry named exactly `assets`, extracted
with `ignore_top_level = true` into output root `a/out`, is not skipped: its
selected relative path is empty, so the code calls `create_dir_all` on
`a` — the *parent* of the output root, a path that does not stay under the
output root — and writes the file at the output root path itself. -/
theorem jar_outputs_confined_counterexample :
    (extract_jar
        ⟨fun _ => some ([⟨⟨false, ["assets"]⟩, false, [7], none⟩], none),
          fun _ => false, fun _ => false, fun _ => false, fun _ => false⟩
        ⟨false, ["v.jar"]⟩ ⟨false, ["a", "out"]⟩ ⟨true, false⟩ true
      = ([JEvent.openArchive ⟨false, ["v.jar"]⟩, JEvent.progress ⟨false, []⟩,
          JEvent.mkdirAll ⟨false, ["a"]⟩,
          JEvent.writeFile ⟨false, ["a", "out"]⟩ [7]], none))
    ∧ ¬ (["a", "out"] <+: ["a"]) := by
  constructor
  · rfl
  · decide

/-- C10 (amended): entries whose stored path is absolute or contains a
`..` component are skipped before any classification or I/O; every other
processed entry yields a safe relative selected path `rel` (relative, no
`..`), every file write targets `output_root/rel`, and every directory
creation targets `output_root/rel` or its component-wise parent — so all
writes land at or under the output root, and the only path that can fall
outside it is the parent-directory creation when `rel` is empty, which
targets the output root's own parent. -/
theorem jar_outputs_confined
    (env : JarEnv) (jar_file output_dir : RPath) (ec : ExtractedContents)
    (ignore_top_level : Bool) :
    (∀ (a d top : Option RPath) (i : Nat) (e : ZipEntryData),
      env.byIndexFails i = false → enclosedName e.name = none →
        jarEntryStep env a d ignore_top_level top output_dir i e = ([], none))
    ∧ (∀ (p : RPath) (c : Bytes),
        JEvent.writeFile p c
            ∈ (extract_jar env jar_file output_dir ec ignore_top_level).1 →
          ∃ rel : RPath, rel.abs = false ∧ ".." ∉ rel.segs ∧
            p = output_dir.join rel)
    ∧ (∀ p : RPath,
        JEvent.mkdirAll p
            ∈ (extract_jar env jar_file output_dir ec ignore_top_level).1 →
          ∃ rel : RPath, rel.abs = false ∧ ".." ∉ rel.segs ∧
            (p = output_dir.join rel
              ∨ p = ⟨(output_dir.join rel).abs,
                  (output_dir.join rel).segs.dropLast⟩)) := by
  have hx : ∀ (ev : JEvent),
      ev ∈ (extract_jar env jar_file output_dir ec ignore_top_level).1 →
        ev = JEvent.openArchive jar_file
        ∨ ∃ (rel : RPath) (c : Bytes), rel.abs = false ∧ ".." ∉ rel.segs ∧
          (ev = JEvent.progress rel
            ∨ ev = JEvent.mkdirAll (output_dir.join rel)
            ∨ ev = JEvent.mkdirAll ⟨(output_dir.join rel).abs,
                (output_dir.join rel).segs.dropLast⟩
            ∨ ev = JEvent.writeFile (output_dir.join rel) c
            ∨ ∃ m, ev = JEvent.setPerms (output_dir.join rel) m) := by
    intro ev h
    unfold extract_jar at h
    by_cases hsel : ((if ec.assets then some (⟨false, ["assets"]⟩ : RPath)
        else none).isNone
      && (if ec.data then some (⟨false, ["data"]⟩ : RPath) else none).isNone)
        = true
    · rw [if_pos hsel] at h
      exact absurd h (by simp)
    · rw [if_neg hsel] at h
      cases hop : env.openResult jar_file with
      | none => rw [hop] at h; exact absurd h (by simp)
      | some pr =>
          rw [hop] at h
          rcases List.mem_cons.mp h with h1 | h2
          · exact Or.inl h1
          · exact Or.inr (jarLoop_event_paths pr.1 0 ev h2)
  refine ⟨?_, ?_, ?_⟩
  · intro a d top i e hb henc
    unfold jarEntryStep
    simp only [hb, Bool.false_eq_true, if_false, henc]
  · intro p c h
    rcases hx _ h with h1 | ⟨rel, c', h2, h3, h4⟩
    · exact absurd h1 (by simp)
    · rcases h4 with h5 | h5 | h5 | h5 | ⟨m, h5⟩
      · exact absurd h5 (by simp)
      · exact absurd h5 (by simp)
      · exact absurd h5 (by simp)
      · injection h5 with h6 h7
        exact ⟨rel, h2, h3, h6⟩
      · exact absurd h5 (by simp)
  · intro p h
    rcases hx _ h with h1 | ⟨rel, c', h2, h3, h4⟩
    · exact absurd h1 (by simp)
    · rcases h4 with h5 | h5 | h5 | h5 | ⟨m, h5⟩
      · exact absurd h5 (by simp)
      · injection h5 with h6
        exact ⟨rel, h2, h3, Or.inl h6⟩
      · injection h5 with h6
        exact ⟨rel, h2, h3, Or.inr h6⟩
      · exact absurd h5 (by simp)
      · exact absurd h5 (by simp)

/-- Witness for the amended C10: an unsafe `../escape.txt` entry produces
no events, and the one write of a safe run decomposes over the output
root. -/
theorem jar_outputs_confined_witness :
    (jarEntryStep
        ⟨fun _ => none, fun _ => false, fun _ => false, fun _ => false,
          fun _ => false⟩
        (some ⟨false, ["assets"]⟩) none false none ⟨false, ["out"]⟩ 0
        ⟨⟨false, ["..", "escape.txt"]⟩, false, [9], none⟩ = ([], none))
    ∧ (∃ rel : RPath, rel.abs = false ∧ ".." ∉ rel.segs ∧
        (⟨false, ["out", "assets", "x.txt"]⟩ : RPath)
          = RPath.join ⟨false, ["out"]⟩ rel) := by
  constructor
  · exact (jar_outputs_confined
      ⟨fun _ => none, fun _ => false, fun _ => false, fun _ => false,
        fun _ => false⟩
      ⟨false, ["v.jar"]⟩ ⟨false, ["out"]⟩ ⟨true, false⟩ false).1
      (some ⟨false, ["assets"]⟩) none none 0
      ⟨⟨false, ["..", "escape.txt"]⟩, false, [9], none⟩ rfl rfl
  · exact (jar_outputs_confined
      ⟨fun _ => some ([⟨⟨false, ["assets", "x.txt"]⟩, false, [9], none⟩], none),
        fun _ => false, fun _ => false, fun _ => false, fun _ => false⟩
      ⟨false, ["v.jar"]⟩ ⟨false, ["out"]⟩ ⟨true, false⟩ false).2.1
      ⟨false, ["out", "assets", "x.txt"]⟩ [9] (by decide)

/-! ## Theorems: empty selections, version resolution and sequencing (C5, C8, C3) -/

/-- C5: with both `assets` and `data` deselected, archive extraction
returns success immediately — no container open, no directory creation, no
file write, an empty event trace — and version-mode extraction likewise
succeeds trivially with an empty trace, whatever the environments hold. -/
theorem empty_selection_no_work
    (jenv : JarEnv) (venv : VersionEnv)
    (jar_file output_dir version_dir output_dir2 : RPath)
    (cli_hashed_assets_dir : Option RPath) (ign ign2 : Bool) :
    extract_jar jenv jar_file output_dir ⟨false, false⟩ ign = ([], none)
    ∧ versionExecute venv version_dir cli_hashed_assets_dir output_dir2
        ⟨false, false⟩ ign2 = ([], none) :=
  ⟨rfl, rfl⟩

/-- C8: `Version::parse` resolution order — an existing directory path is
used unchanged; otherwise the specifier is joined under the default
versions root (with `push` semantics) and used when that is an existing
directory; otherwise (also when no default versions root exists) the result
is an `InvalidVersion` error carrying the original specifier string. -/
theorem version_parse_resolution (env : ParseEnv) (input : String) :
    (env.isDir (strToPath input) = true →
      Version.parse env input = Except.ok (strToPath input))
    ∧ (env.isDir (strToPath input) = false →
        ∀ vd, env.versionsDir = some vd →
          (env.isDir (vd.join (strToPath input)) = true →
            Version.parse env input = Except.ok (vd.join (strToPath input)))
          ∧ (env.isDir (vd.join (strToPath input)) = false →
            Version.parse env input = Except.error ⟨input⟩))
    ∧ (env.isDir (strToPath input) = false → env.versionsDir = none →
        Version.parse env input = Except.error ⟨input⟩) := by
  refine ⟨?_, ?_, ?_⟩
  · intro h
    unfold Version.parse
    rw [if_pos h]
  · intro h vd hvd
    constructor
    · intro hdir
      unfold Version.parse
      rw [if_neg (by rw [h]; exact Bool.false_ne_true), hvd]
      simp only [inspect_mut, optFilter, hdir, if_true]
    · intro hdir
      unfold Version.parse
      rw [if_neg (by rw [h]; exact Bool.false_ne_true), hvd]
      simp only [inspect_mut, optFilter, hdir, Bool.false_eq_true, if_false]
  · intro h hvd
    unfold Version.parse
    rw [if_neg (by rw [h]; exact Bool.false_ne_true), hvd]
    simp [inspect_mut, optFilter]

/-- Witness for C8: a bare version name resolving to a child of the
default versions root, and an unresolvable name producing the error with
the original specifier. -/
theorem version_parse_resolution_witness :
    (Version.parse
        ⟨fun p => p = ⟨false, ["mc", "versions", "1.20.1"]⟩,
          some ⟨false, ["mc", "versions"]⟩⟩ "1.20.1"
      = Except.ok ⟨false, ["mc", "versions", "1.20.1"]⟩)
    ∧ (Version.parse
        ⟨fun _ => false, some ⟨false, ["mc", "versions"]⟩⟩ "nope"
      = Except.error ⟨"nope"⟩) := by
  constructor
  · exact ((version_parse_resolution
      ⟨fun p => p = ⟨false, ["mc", "versions", "1.20.1"]⟩,
        some ⟨false, ["mc", "versions"]⟩⟩ "1.20.1").2.1 (by decide)
      ⟨false, ["mc", "versions"]⟩ rfl).1 (by decide)
  · exact ((version_parse_resolution
      ⟨fun _ => false, some ⟨false, ["mc", "versions"]⟩⟩ "nope").2.1 rfl
      ⟨false, ["mc", "versions"]⟩ rfl).2 rfl

/-- C3 counterexample: with a non-empty selection (`assets` only), a
manifest naming index version `7`, and no `indexes/7.json` file, the run
reads the manifest and checks the index — and fails — *before* archive
extraction, which never happens: the trace carries no `jarStart` event, so
neither is the ArchiveExtractor always invoked, nor does the assets step
(manifest parsing, index check) run after archive extraction. -/
theorem version_sequencing_counterexample :
    (versionExecute
        ⟨⟨fun _ => some ([], none), fun _ => false, fun _ => false,
            fun _ => false, fun _ => false⟩,
          ⟨fun _ => false, fun _ => false⟩, fun _ => none,
          fun _ => true, none, fun _ => some "7", fun _ => false, []⟩
        ⟨false, ["mc", "versions", "1.20.1"]⟩ (some ⟨false, ["mc", "assets"]⟩)
        ⟨false, ["out"]⟩ ⟨true, false⟩ true
      = ([VEvent.manifestRead
            ⟨false, ["mc", "versions", "1.20.1", "1.20.1.json"]⟩,
          VEvent.indexChecked ⟨false, ["mc", "assets", "indexes", "7.json"]⟩],
        some (VError.missingIndex
          ⟨false, ["mc", "assets", "indexes", "7.json"]⟩)))
    ∧ VEvent.jarStart ⟨false, ["mc", "versions", "1.20.1", "1.20.1.jar"]⟩
        ∉ [VEvent.manifestRead
            ⟨false, ["mc", "versions", "1.20.1", "1.20.1.json"]⟩,
          VEvent.indexChecked ⟨false, ["mc", "assets", "indexes", "7.json"]⟩] := by
  constructor
  · rfl
  · decide

/-- C3 (amended): in version-mode extraction with a non-empty selection,
all fatal setup runs *before* archive extraction: manifest parsing (when
`assets` is selected), the unconditional hashed-assets-directory
resolution (`src/version.rs` lines 146-150, fatal even for data-only
runs), and the index-existence check (when `assets` is selected). Only
when these succeed — and the version directory has a valid name — is the
ArchiveExtractor invoked on the resolved container path
`<version_dir>/<name>.jar`, with hashed-asset extraction beginning only
after archive extraction has fully completed successfully; a data-only run
whose hashed-assets directory does not resolve dies before the archive is
ever touched. -/
theorem version_sequencing_amended (env : VersionEnv)
    (version_dir output_dir : RPath) (cli_hashed_assets_dir : Option RPath)
    (ec : ExtractedContents) (ignore_top_level : Bool) :
    (∀ (nm iv : String) (had : RPath), ec.assets = true →
      Version.name version_dir = some nm →
      env.manifestParse (version_dir.join ⟨false, [nm ++ ".json"]⟩) = some iv →
      optFilter env.isDir (cli_hashed_assets_dir.orElse fun _ =>
          env.defaultHashedAssetsDir) = some had →
      env.indexIsFile (indexFilePath had iv) = true →
      (extract_jar env.jar (version_dir.join ⟨false, [nm ++ ".jar"]⟩)
          output_dir ec ignore_top_level).2 = none →
        versionExecute env version_dir cli_hashed_assets_dir output_dir ec
            ignore_top_level
          = ([VEvent.manifestRead (version_dir.join ⟨false, [nm ++ ".json"]⟩),
              VEvent.indexChecked (indexFilePath had iv),
              VEvent.jarStart (version_dir.join ⟨false, [nm ++ ".jar"]⟩)]
              ++ (extract_jar env.jar
                  (version_dir.join ⟨false, [nm ++ ".jar"]⟩)
                  output_dir ec ignore_top_level).1.map VEvent.jarEvt
              ++ VEvent.hashedStart (indexFilePath had iv)
                  :: (extract_hashed_assets env.hashed env.read had output_dir
                      env.indexObjects ignore_top_level).map VEvent.hashedEvt,
            none))
    ∧ (∀ (nm iv : String) (had : RPath) (e : JarError), ec.assets = true →
        Version.name version_dir = some nm →
        env.manifestParse (version_dir.join ⟨false, [nm ++ ".json"]⟩)
            = some iv →
        optFilter env.isDir (cli_hashed_assets_dir.orElse fun _ =>
            env.defaultHashedAssetsDir) = some had →
        env.indexIsFile (indexFilePath had iv) = true →
        (extract_jar env.jar (version_dir.join ⟨false, [nm ++ ".jar"]⟩)
            output_dir ec ignore_top_level).2 = some e →
          versionExecute env version_dir cli_hashed_assets_dir output_dir ec
              ignore_top_level
            = ([VEvent.manifestRead
                  (version_dir.join ⟨false, [nm ++ ".json"]⟩),
                VEvent.indexChecked (indexFilePath had iv),
                VEvent.jarStart (version_dir.join ⟨false, [nm ++ ".jar"]⟩)]
                ++ (extract_jar env.jar
                    (version_dir.join ⟨false, [nm ++ ".jar"]⟩)
                    output_dir ec ignore_top_level).1.map VEvent.jarEvt,
              some (VError.jarFail e)))
    ∧ (∀ (nm : String) (had : RPath), ec.assets = false → ec.data = true →
        optFilter env.isDir (cli_hashed_assets_dir.orElse fun _ =>
            env.defaultHashedAssetsDir) = some had →
        Version.name version_dir = some nm →
          versionExecute env version_dir cli_hashed_assets_dir output_dir ec
              ignore_top_level
            = (VEvent.jarStart (version_dir.join ⟨false, [nm ++ ".jar"]⟩)
                :: (extract_jar env.jar
                    (version_dir.join ⟨false, [nm ++ ".jar"]⟩)
                    output_dir ec ignore_top_level).1.map VEvent.jarEvt,
              (extract_jar env.jar (version_dir.join ⟨false, [nm ++ ".jar"]⟩)
                  output_dir ec ignore_top_level).2.map VError.jarFail))
    ∧ (ec.assets = false → ec.data = true →
        optFilter env.isDir (cli_hashed_assets_dir.orElse fun _ =>
            env.defaultHashedAssetsDir) = none →
          versionExecute env version_dir cli_hashed_assets_dir output_dir ec
              ignore_top_level
            = ([], some VError.noHashedDir)) := by
  refine ⟨?_, ?_, ?_, ?_⟩
  · intro nm iv had ha hname hm hhad hi hj
    have hmf : Version.manifest_file version_dir
        = some (version_dir.join ⟨false, [nm ++ ".json"]⟩) := by
      rw [Version.manifest_file, hname]
      rfl
    have hjf : Version.jar_file version_dir
        = some (version_dir.join ⟨false, [nm ++ ".jar"]⟩) := by
      rw [Version.jar_file, hname]
      rfl
    unfold versionExecute
    simp only [ha, Bool.not_true, Bool.false_and, Bool.false_eq_true, if_false,
      if_true, hmf, hm, hhad, hi, hjf, hj]
    simp
  · intro nm iv had e ha hname hm hhad hi hj
    have hmf : Version.manifest_file version_dir
        = some (version_dir.join ⟨false, [nm ++ ".json"]⟩) := by
      rw [Version.manifest_file, hname]
      rfl
    have hjf : Version.jar_file version_dir
        = some (version_dir.join ⟨false, [nm ++ ".jar"]⟩) := by
      rw [Version.jar_file, hname]
      rfl
    unfold versionExecute
    simp only [ha, Bool.not_true, Bool.false_and, Bool.false_eq_true, if_false,
      if_true, hmf, hm, hhad, hi, hjf, hj]
    simp
  · intro nm had ha hd hhad hname
    have hjf : Version.jar_file version_dir
        = some (version_dir.join ⟨false, [nm ++ ".jar"]⟩) := by
      rw [Version.jar_file, hname]
      rfl
    unfold versionExecute
    simp only [ha, hd, Bool.not_true, Bool.not_false, Bool.true_and,
      Bool.false_eq_true, if_false, hhad, hjf]
    cases hj : (extract_jar env.jar
        (version_dir.join ⟨false, [nm ++ ".jar"]⟩) output_dir ec
        ignore_top_level).2 with
    | none => simp [hj]
    | some e => simp [hj]
  · intro ha hd hhad
    unfold versionExecute
    simp only [ha, hd, Bool.not_true, Bool.not_false, Bool.true_and,
      Bool.false_eq_true, if_false, hhad]

/-- Witness for the amended C3: a concrete successful assets run produces
the manifest, index, archive and hashed phases in that order. -/
theorem version_sequencing_amended_witness :
    versionExecute
        ⟨⟨fun _ => some ([], none), fun _ => false, fun _ => false,
            fun _ => false, fun _ => false⟩,
          ⟨fun _ => false, fun _ => false⟩, fun _ => none,
          fun _ => true, none, fun _ => some "7", fun _ => true, []⟩
        ⟨false, ["mc", "versions", "1.20.1"]⟩ (some ⟨false, ["mc", "assets"]⟩)
        ⟨false, ["out"]⟩ ⟨true, false⟩ true
      = ([VEvent.manifestRead
            ⟨false, ["mc", "versions", "1.20.1", "1.20.1.json"]⟩,
          VEvent.indexChecked ⟨false, ["mc", "assets", "indexes", "7.json"]⟩,
          VEvent.jarStart ⟨false, ["mc", "versions", "1.20.1", "1.20.1.jar"]⟩,
          VEvent.jarEvt (JEvent.openArchive
            ⟨false, ["mc", "versions", "1.20.1", "1.20.1.jar"]⟩),
          VEvent.hashedStart ⟨false, ["mc", "assets", "indexes", "7.json"]⟩],
        none) := by
  have h := (version_sequencing_amended
      ⟨⟨fun _ => some ([], none), fun _ => false, fun _ => false,
          fun _ => false, fun _ => false⟩,
        ⟨fun _ => false, fun _ => false⟩, fun _ => none,
        fun _ => true, none, fun _ => some "7", fun _ => true, []⟩
      ⟨false, ["mc", "versions", "1.20.1"]⟩ ⟨false, ["out"]⟩
      (some ⟨false, ["mc", "assets"]⟩) ⟨true, false⟩ true).1 "1.20.1" "7"
      ⟨false, ["mc", "assets"]⟩ rfl rfl rfl rfl rfl (by decide)
  rw [h]
  decide

end Extract
